import Mathlib

/-!
Shallow embedding of `src/vp_analysis_api/VPAnalysisAPI.py` (the
`vp-analysis-api` client library) and proofs about its batching,
assembly, retry, pivot, configuration and cleaning logic.

Tables are modelled with a `Nat` row key (the date index), `String`
column labels and `Option Int` cells (`none` is a missing value / NaN).
Python exceptions are modelled by the `PyError` type together with an
`Except` result; the broad `except Exception` clauses of the source are
modelled by explicit wrapping functions applied to every error produced
inside the corresponding `try` block.
-/

namespace VPAnalysis

/-- A pandas DataFrame, modelled by its row index, its column labels and a
total cell function; a cell is read only at `(i, c)` with `i ∈ index` and
`c ∈ cols`, and `none` models a missing value (NaN). Column labels are
assumed to identify columns, which is the case for all tables the claims
are about. -/
structure Table where
  index : List Nat
  cols : List String
  cell : Nat → String → Option Int

/-- The empty DataFrame. -/
def emptyTable : Table := ⟨[], [], fun _ _ => none⟩

/-- The Python exceptions raised by the library: `ValueError` (raised by
pandas itself), and the library's `RateLimitError`, `APIRequestError` and
`AuthenticationError`, each carrying its message string. -/
inductive PyError where
  | valueError (msg : String)
  | rateLimitError (msg : String)
  | apiRequestError (msg : String)
  | authenticationError (msg : String)
deriving DecidableEq

/-- `str(e)` for a modelled exception: its message. -/
def PyError.message : PyError → String
  | .valueError m => m
  | .rateLimitError m => m
  | .apiRequestError m => m
  | .authenticationError m => m

/-- An `httpx.Response`: status code, body text, and (for 200 responses)
the decoded Arrow payload as a table. Decoding via
`pa.ipc.open_file(...).read_pandas()` is modelled as already done. -/
structure Response where
  status : Nat
  text : String
  content : Table

/-- The exact 503 body recognized by `is_server_overload_error`. -/
def upstreamResetText : String :=
  "upstream connect error or disconnect/reset before headers. reset reason: connection termination"

/-- Embeds `is_server_overload_error` (lines 35-50): true exactly for a 503
with the upstream-reset body, or a 429 with body "Rate exceeded.". -/
def is_server_overload_error (res : Response) : Bool :=
  (res.status == 503 && res.text == upstreamResetText)
    || (res.status == 429 && res.text == "Rate exceeded.")

/-- The message of every `RateLimitError` raised by the library. -/
def rateLimitMsg : String := "Rate limit exceeded. Please try again later."

/-- CHUNKING (line 150). -/
def CHUNKING : Nat := 100

/-- Fuel-driven helper for `chunksOf`; with `fuel ≥ l.length` and `0 < n`
it computes the slices `l[0:n], l[n:2n], ...` of the Python list
comprehension at lines 152-155. -/
def chunksOfAux (n : Nat) : Nat → List String → List (List String)
  | _, [] => []
  | 0, _ :: _ => []
  | fuel + 1, x :: xs => (x :: xs).take n :: chunksOfAux n fuel ((x :: xs).drop n)

/-- Embeds the chunking comprehension
`[unique_series_list[i : i + CHUNKING] for i in range(0, len, CHUNKING)]`
(lines 152-155). -/
def chunksOf (n : Nat) (l : List String) : List (List String) :=
  chunksOfAux n l.length l

/-- Embeds the status checks at lines 180-185: a 429 raises
`RateLimitError`, any other non-200 raises `APIRequestError` with status
and body, a 200 is decoded into a table. -/
def getSeriesBatchCheck (resp : Response) : Except PyError Table :=
  if resp.status == 429 then
    .error (.rateLimitError rateLimitMsg)
  else if resp.status != 200 then
    .error (.apiRequestError
      ("API request failed with status " ++ toString resp.status ++ ": " ++ resp.text))
  else
    .ok resp.content

/-- Embeds the `except Exception` clause at lines 194-197 of
`_get_series_internal`: every exception raised inside the per-batch `try`
block (including the library's own `RateLimitError` and `APIRequestError`
raised at lines 181-185, which are `Exception` subclasses and are not
`httpx.HTTPStatusError`) is wrapped into this `APIRequestError`. -/
def wrapGetSeriesError (e : PyError) : PyError :=
  .apiRequestError ("Unexpected error while getting series data: " ++ e.message)

/-- One iteration of the per-batch `try`/`except` (lines 176-197): the
status checks run, and any raised error is wrapped by the
`except Exception` clause. -/
def getSeriesBatch (resp : Response) : Except PyError Table :=
  match getSeriesBatchCheck resp with
  | .ok t => .ok t
  | .error e => .error (wrapGetSeriesError e)

/-- Embeds the `for chunk in series_chunks` loop (lines 158-197) over an
abstract server (one response per posted chunk). Returns the list of
chunks actually posted together with either the collected decoded tables
(`df_list`) or the first error, which aborts the remaining chunks. -/
def runChunks (server : List String → Response) :
    List (List String) → List (List String) × Except PyError (List Table)
  | [] => ([], .ok [])
  | c :: cs =>
    match getSeriesBatch (server c) with
    | .error e => ([c], .error e)
    | .ok t =>
      let r := runChunks server cs
      (c :: r.1,
        match r.2 with
        | .ok ts => .ok (t :: ts)
        | .error e => .error e)

/-- The table built by `pd.concat(df_list, axis=1)` on a nonempty list:
columns are concatenated in order, the index is the union of the inputs'
indexes, and a cell is looked up in the (unique, when columns are
disjoint) input holding that column, yielding a missing value when that
input has no row for the key (pandas outer-join alignment). -/
def concatTable (ts : List Table) : Table :=
  { index := ((ts.map Table.index).flatten).dedup
    cols := (ts.map Table.cols).flatten
    cell := fun i c =>
      match ts.find? (fun t => t.cols.contains c) with
      | some t => if t.index.contains i then t.cell i c else none
      | none => none }

/-- Embeds `pd.concat(df_list, axis=1)` (line 199): pandas raises
`ValueError("No objects to concatenate")` on an empty list, and otherwise
aligns the inputs column-wise on the union of their indexes. -/
def pdConcatCols (ts : List Table) : Except PyError Table :=
  match ts with
  | [] => .error (.valueError "No objects to concatenate")
  | _ :: _ => .ok (concatTable ts)

/-- Embeds `_get_series_internal` (lines 124-199): deduplicate, chunk by
`CHUNKING`, post one request per chunk aborting on the first error, then
concatenate column-wise. The `pd.concat` call at line 199 sits outside
the per-batch `try`, so its `ValueError` propagates unwrapped. Returns
the posted chunks alongside the result. -/
def get_series_internal (server : List String → Response) (series_list : List String) :
    List (List String) × Except PyError Table :=
  let cs := chunksOf CHUNKING series_list.dedup
  let r := runChunks server cs
  (r.1,
    match r.2 with
    | .error e => .error e
    | .ok ts => pdConcatCols ts)

/-- Python `x[3:]` on a string: drop the first three characters. -/
def strDrop3 (x : String) : String := ⟨x.data.drop 3⟩

/-- Embeds `df.rename(columns=f, inplace=True)`: relabel the columns;
a cell of a renamed column is read from the column it was renamed from
(well-defined whenever `f` is injective on the column labels). -/
def renameCols (f : String → String) (t : Table) : Table :=
  { index := t.index
    cols := t.cols.map f
    cell := fun i c =>
      match t.cols.find? (fun x => f x == c) with
      | some x => t.cell i x
      | none => none }

/-- Embeds `get_series` (lines 91-122): prefix every requested identifier
with "vp:", call `_get_series_internal`, strip the first three characters
of every column label; any exception from the inner call is caught by the
outer `except Exception` (lines 121-122) and wrapped again. -/
def get_series (server : List String → Response) (series_list : List String) :
    List (List String) × Except PyError Table :=
  let r := get_series_internal server (series_list.map (fun s => "vp:" ++ s))
  (r.1,
    match r.2 with
    | .ok df => .ok (renameCols strDrop3 df)
    | .error e => .error (wrapGetSeriesError e))

/-- The base URL computed at lines 87-89: the `VP_DATA_API_URL`
environment variable, defaulting to the hardcoded production URL, with
"/api/v1" appended. There is no constructor argument for it. -/
def apiUrl (env : String → Option String) : String :=
  ((env "VP_DATA_API_URL").getD "https://api.variantperception.com") ++ "/api/v1"

/-- Embeds `VPAnalysisAPI.__init__` (lines 64-89) over an abstract
environment: the key is the explicit argument if given, else the
`VP_ANALYSIS_API_KEY` environment variable, else an
`AuthenticationError`; on success the client state is the pair
`(api_key, data_api_url)`. -/
def VPAnalysisAPI_init (api_key : Option String) (env : String → Option String) :
    Except PyError (String × String) :=
  let env_key := env "VP_ANALYSIS_API_KEY"
  match api_key with
  | some k => .ok (k, apiUrl env)
  | none =>
    match env_key with
    | some k => .ok (k, apiUrl env)
    | none =>
      .error (.authenticationError
        "No API key provided. Set VP_ANALYSIS_API_KEY environment variable or pass api_key parameter.")

/-- Embeds `df.loc[pd.to_datetime(start_date):]` (line 252, first half):
keep the rows at or after the start date. -/
def locFrom (start : Nat) (df : Table) : Table :=
  { df with index := df.index.filter (fun i => decide (start ≤ i)) }

/-- Embeds `.asfreq(freq)` (line 252, second half) with the frequency
abstracted to a step size: the new index is the regular grid from the
first to the last existing row key, and a grid cell holds the original
value when the grid point was an existing row key and a missing value
otherwise (pandas asfreq semantics on a sorted index). -/
def asfreq (step : Nat) (df : Table) : Table :=
  { index :=
      match df.index with
      | [] => []
      | i0 :: rest =>
        (List.range (((i0 :: rest).getLast (List.cons_ne_nil i0 rest) - i0) / step + 1)).map
          (fun k => i0 + k * step)
    cols := df.cols
    cell := fun i c => if df.index.contains i then df.cell i c else none }

/-- One cell of `df[col].ffill().where(df[col].bfill().notnull())`
(line 254) on a sorted index: if some row at or after `i` holds a value
in column `c` (the `bfill().notnull()` mask), the cell becomes the value
of the last row at or before `i` holding a value (`ffill`), and
otherwise it is masked to missing. -/
def ffillMaskCell (df : Table) (c : String) (i : Nat) : Option Int :=
  if df.index.any (fun j => decide (i ≤ j) && (df.cell j c).isSome) then
    ((df.index.filter (fun j => decide (j ≤ i) && (df.cell j c).isSome)).getLast?).bind
      (fun j => df.cell j c)
  else
    none

/-- Embeds the per-column loop at lines 253-254; the columns are
independent, so the sequential in-place updates equal this simultaneous
update. -/
def ffillMask (df : Table) : Table :=
  { df with cell := fun i c => ffillMaskCell df c i }

/-- Embeds `df.first_valid_index()`: the first row key whose row holds a
valid value in some column. -/
def firstValidIndex (df : Table) : Option Nat :=
  df.index.find? (fun i => df.cols.any (fun c => (df.cell i c).isSome))

/-- Embeds `df.loc[df.first_valid_index():]` (line 255) on a sorted
index: drop the rows before the first valid one; when every cell is
missing, `first_valid_index()` is `None` and `df.loc[None:]` keeps every
row. -/
def trimLeading (df : Table) : Table :=
  match firstValidIndex df with
  | none => df
  | some i0 => { df with index := df.index.filter (fun i => decide (i0 ≤ i)) }

/-- Embeds `clean_df` (lines 236-256): restrict to the start date,
resample to the fixed frequency, forward-fill each column masked by its
backward-fill, trim the leading all-missing rows. -/
def clean_df (df : Table) (freq : Nat) (start_date : Nat) : Table :=
  trimLeading (ffillMask (asfreq freq (locFrom start_date df)))

/-- One row of the long-format `/security_factors` payload. -/
structure FactorRow where
  dt : Nat
  stock_code : String
  factor_identifier : String
  value : Int

/-- The wide table produced by the factor pivot: keyed by date, with a
two-level `(security, factor)` column key. -/
structure FactorTable where
  index : List Nat
  cols : List (String × String)
  cell : Nat → String × String → Option Int

/-- The `(dt, stock_code, factor_identifier)` key triple of a row, the
pivot's combined index/column key. -/
def pivotKey (r : FactorRow) : Nat × String × String :=
  (r.dt, r.stock_code, r.factor_identifier)

/-- The wide table the pivot returns when the key triples are unique. -/
def pivotTable (rows : List FactorRow) : FactorTable :=
  { index := (rows.map FactorRow.dt).dedup
    cols := (rows.map (fun r => (r.stock_code, r.factor_identifier))).dedup
    cell := fun d p =>
      (rows.find? (fun r =>
        decide (r.dt = d) && decide (r.stock_code = p.1) && decide (r.factor_identifier = p.2))).map
        FactorRow.value }

/-- Embeds `df.pivot(index="dt", columns=["stock_code", "factor_identifier"],
values="value")` (line 298): pandas raises
`ValueError("Index contains duplicate entries, cannot reshape")` when the
`(dt, stock_code, factor_identifier)` triple is duplicated, and otherwise
reshapes into the wide table. -/
def pivotFactors (rows : List FactorRow) : Except PyError FactorTable :=
  if (rows.map pivotKey).Nodup then
    .ok (pivotTable rows)
  else
    .error (.valueError "Index contains duplicate entries, cannot reshape")

/-- Embeds the retry `while` loop of `invalidate_cache` (lines 404-411)
over an abstract response sequence (`responses k` is the response of
attempt `k`, so the initial request at line 400 receives `responses 0`).
State: `fuel = 3 - num_of_retries`, `k = num_of_retries`, `sleeps` the
`time.sleep` durations performed so far. Returns the final
`num_of_retries`, the sleeps, and the final response. -/
def invalidateLoop (responses : Nat → Response) :
    Nat → Nat → List Nat → Nat × List Nat × Response
  | 0, k, sleeps => (k, sleeps, responses k)
  | fuel + 1, k, sleeps =>
    if is_server_overload_error (responses k) then
      invalidateLoop responses fuel (k + 1) (sleeps ++ [10])
    else
      (k, sleeps, responses k)

/-- Embeds the `except Exception` clause at lines 424-425 of
`invalidate_cache`: every exception raised inside the `try` block
(including the `RateLimitError` and `APIRequestError` raised at lines
413-418) is wrapped into this `APIRequestError`. -/
def wrapInvalidateError (e : PyError) : PyError :=
  .apiRequestError ("Unexpected error while invalidating cache: " ++ e.message)

/-- Embeds the final status checks of `invalidate_cache`
(lines 413-418). -/
def invalidateCheck (resp : Response) : Except PyError Unit :=
  if resp.status == 429 then
    .error (.rateLimitError rateLimitMsg)
  else if resp.status != 200 then
    .error (.apiRequestError
      ("API request failed with status " ++ toString resp.status ++ ": " ++ resp.text))
  else
    .ok ()

/-- Embeds `invalidate_cache` (lines 382-425): the initial request, the
overload-retry loop (at most 3 retries, 10-second sleep before each),
the final status checks, and the wrapping `except Exception` clause.
Returns the number of retries, the sleeps performed, and the outcome. -/
def invalidate_cache (responses : Nat → Response) :
    Nat × List Nat × Except PyError Unit :=
  let r := invalidateLoop responses 3 0 []
  (r.1, r.2.1,
    match invalidateCheck r.2.2 with
    | .ok u => .ok u
    | .error e => .error (wrapInvalidateError e))

/-- The column labels of a successful result, `none` on an error. -/
def resultCols : Except PyError Table → Option (List String)
  | .ok t => some t.cols
  | .error _ => none

/-- A 429 response (body text other than "Rate exceeded."). -/
def resp429 : Response := ⟨429, "Too Many Requests", emptyTable⟩

/-- A plain 200 response with an empty payload. -/
def ok200 : Response := ⟨200, "", emptyTable⟩

/-- The recognized 503 overload response. -/
def overload503 : Response := ⟨503, upstreamResetText, emptyTable⟩

/-- The recognized 429 overload response (exact body "Rate exceeded."). -/
def overload429 : Response := ⟨429, "Rate exceeded.", emptyTable⟩

/-- 150 pairwise distinct identifiers, enough for two batches. -/
def bigList : List String := (List.range 150).map (fun k => String.mk (List.replicate k 'a'))

/-- A server that echoes the requested identifiers as the columns of a
200 response. -/
def echoServer : List String → Response := fun c => ⟨200, "", ⟨[], c, fun _ _ => none⟩⟩

/-- The table `get_series` returns for the request ["a", "b", "a"]
against `echoServer`. -/
def echoResult : Table :=
  renameCols strDrop3 (concatTable [⟨[], ["vp:b", "vp:a"], fun _ _ => none⟩])

/-- A one-column batch result with a row at key 0. -/
def tA : Table := ⟨[0], ["a"], fun i c => if c = "a" && i == 0 then some 7 else none⟩

/-- A one-column batch result with a row at key 1, column-disjoint from `tA`. -/
def tB : Table := ⟨[1], ["b"], fun i c => if c = "b" && i == 1 then some 8 else none⟩

/-- Two columns over rows 0 and 1: "A" is valid everywhere, "B" only at
row 1, so the cell ("B", 0) is missing with a later valid value and no
earlier one. -/
def dfC9 : Table :=
  ⟨[0, 1], ["A", "B"], fun i c =>
    if c = "A" then some 1 else if c = "B" && i == 1 then some 5 else none⟩

/-- One column over rows 0..5 with values only at rows 0 and 4: an
interior gap at 1..3 and trailing missing rows at 5. -/
def dfGap : Table :=
  ⟨[0, 1, 2, 3, 4, 5], ["C"], fun i c =>
    if c = "C" && (i == 0 || i == 4) then some (Int.ofNat i) else none⟩

/-! ## Lemmas about the chunking step -/

theorem chunksOfAux_nil (n fuel : Nat) : chunksOfAux n fuel [] = [] := by
  cases fuel <;> rfl

theorem chunksOfAux_flatten (n : Nat) (hn : 0 < n) :
    ∀ fuel l, l.length ≤ fuel → (chunksOfAux n fuel l).flatten = l := by
  intro fuel
  induction fuel with
  | zero =>
    intro l hl
    have : l = [] := List.length_eq_zero.mp (Nat.le_zero.mp hl)
    subst this
    rfl
  | succ f ih =>
    intro l hl
    match l with
    | [] => rfl
    | x :: xs =>
      have hdrop : ((x :: xs).drop n).length ≤ f := by
        rw [List.length_drop]
        simp only [List.length_cons] at hl ⊢
        omega
      calc (chunksOfAux n (f + 1) (x :: xs)).flatten
          = (x :: xs).take n ++ (chunksOfAux n f ((x :: xs).drop n)).flatten := rfl
        _ = (x :: xs).take n ++ (x :: xs).drop n := by rw [ih _ hdrop]
        _ = x :: xs := List.take_append_drop ..

theorem chunksOfAux_length_le (n : Nat) :
    ∀ fuel l c, c ∈ chunksOfAux n fuel l → c.length ≤ n := by
  intro fuel
  induction fuel with
  | zero =>
    intro l c hc
    cases l <;> simp [chunksOfAux] at hc
  | succ f ih =>
    intro l c hc
    match l with
    | [] => simp [chunksOfAux] at hc
    | x :: xs =>
      rcases List.mem_cons.mp hc with h | h
      · subst h
        simp
      · exact ih _ _ h

theorem chunksOfAux_dropLast_length (n : Nat) (hn : 0 < n) :
    ∀ fuel l, l.length ≤ fuel → ∀ c ∈ (chunksOfAux n fuel l).dropLast, c.length = n := by
  intro fuel
  induction fuel with
  | zero =>
    intro l hl c hc
    have : l = [] := List.length_eq_zero.mp (Nat.le_zero.mp hl)
    subst this
    simp [chunksOfAux] at hc
  | succ f ih =>
    intro l hl c hc
    match l with
    | [] => simp [chunksOfAux] at hc
    | x :: xs =>
      have hrec : chunksOfAux n (f + 1) (x :: xs)
          = (x :: xs).take n :: chunksOfAux n f ((x :: xs).drop n) := rfl
      rw [hrec] at hc
      rcases hrest : chunksOfAux n f ((x :: xs).drop n) with _ | ⟨c1, cs⟩
      · rw [hrest] at hc
        simp at hc
      · rw [hrest] at hc
        rcases List.mem_cons.mp (by simpa [List.dropLast] using hc) with h | h
        · subst h
          have hne : (x :: xs).drop n ≠ [] := by
            intro hnil
            rw [hnil, chunksOfAux_nil] at hrest
            exact List.cons_ne_nil _ _ hrest.symm
          have hlen : n < (x :: xs).length := by
            by_contra hle
            exact hne (List.drop_eq_nil_of_le (Nat.le_of_not_lt hle))
          simpa using Nat.min_eq_left (Nat.le_of_lt hlen)
        · have hdrop : ((x :: xs).drop n).length ≤ f := by
            rw [List.length_drop]
            simp only [List.length_cons] at hl ⊢
            omega
          exact ih _ hdrop c (by rw [hrest]; exact h)

/-- C1: for every identifier list, `_get_series_internal` first
deduplicates by exact string equality and then slices the result into
consecutive chunks whose concatenation is exactly the deduplicated list
(hence pairwise disjoint with union the deduplicated input set), with
every chunk of size at most 100 and every chunk except the last of size
exactly 100. -/
theorem batching_partition (l : List String) :
    (chunksOf CHUNKING l.dedup).flatten = l.dedup ∧
    l.dedup.Nodup ∧
    (∀ a, a ∈ l.dedup ↔ a ∈ l) ∧
    (∀ c ∈ chunksOf CHUNKING l.dedup, c.length ≤ 100) ∧
    (∀ c ∈ (chunksOf CHUNKING l.dedup).dropLast, c.length = 100) ∧
    (chunksOf CHUNKING l.dedup).Pairwise List.Disjoint := by
  have hflat : (chunksOf CHUNKING l.dedup).flatten = l.dedup :=
    chunksOfAux_flatten CHUNKING (by decide) _ _ (Nat.le_refl _)
  refine ⟨hflat, List.nodup_dedup l, fun a => List.mem_dedup, ?_, ?_, ?_⟩
  · exact fun c hc => chunksOfAux_length_le CHUNKING _ _ c hc
  · exact fun c hc => chunksOfAux_dropLast_length CHUNKING (by decide) _ _ (Nat.le_refl _) c hc
  · have : ((chunksOf CHUNKING l.dedup).flatten).Nodup := by
      rw [hflat]; exact List.nodup_dedup l
    exact (List.nodup_flatten.mp this).2

theorem batching_partition_witness :
    (chunksOf CHUNKING (["a", "b", "a"].dedup)).flatten = ["a", "b", "a"].dedup ∧
    ("a" ∈ ["a", "b", "a"].dedup ↔ "a" ∈ ["a", "b", "a"]) ∧
    (["b", "a"] : List String).length ≤ 100 :=
  ⟨(batching_partition ["a", "b", "a"]).1,
   (batching_partition ["a", "b", "a"]).2.2.1 "a",
   (batching_partition ["a", "b", "a"]).2.2.2.1 ["b", "a"] (by decide)⟩

/-! ## Empty input, configuration, persisting 429 -/

/-- C4: calling `_get_series_internal` with an empty identifier list
posts zero batches, but instead of returning an empty table the
`pd.concat` at line 199 raises `ValueError("No objects to concatenate")`
on the empty `df_list`. -/
theorem get_series_internal_empty_raises (server : List String → Response) :
    get_series_internal server [] = ([], .error (.valueError "No objects to concatenate")) := rfl

/-- C2 counterexample: the assembly step applied to the empty sequence
of batch tables (whose column sets are vacuously pairwise disjoint) does
not produce a table at all: pandas raises `ValueError`. -/
theorem concat_empty_list_fails :
    pdConcatCols [] = .error (.valueError "No objects to concatenate") := rfl

/-- C8 counterexample: construction with an explicit api key and an
entirely empty environment succeeds, although no constructor argument or
environment variable supplies the base URL: the hardcoded default is
used and no error is raised, so the base URL is not "resolvable from an
explicit constructor argument or a named environment variable" with a
failure when both are absent. -/
theorem init_url_default_no_error :
    VPAnalysisAPI_init (some "k") (fun _ => none) =
      .ok ("k", "https://api.variantperception.com/api/v1") := rfl

/-- C8 amended: the auth token comes from the explicit argument, else
the `VP_ANALYSIS_API_KEY` environment variable, the argument taking
precedence, and the absence of both raises `AuthenticationError` (before
any network activity, the model doing no I/O); the base URL has no
constructor argument: it is the `VP_DATA_API_URL` environment variable,
defaulting to the hardcoded production URL, suffixed with "/api/v1". -/
theorem init_key_resolution (k e u : String) (env : String → Option String) :
    VPAnalysisAPI_init (some k) env = .ok (k, apiUrl env) ∧
    (env "VP_ANALYSIS_API_KEY" = some e → VPAnalysisAPI_init none env = .ok (e, apiUrl env)) ∧
    (env "VP_ANALYSIS_API_KEY" = none → VPAnalysisAPI_init none env =
      .error (.authenticationError
        "No API key provided. Set VP_ANALYSIS_API_KEY environment variable or pass api_key parameter.")) ∧
    (env "VP_DATA_API_URL" = none → apiUrl env = "https://api.variantperception.com/api/v1") ∧
    (env "VP_DATA_API_URL" = some u → apiUrl env = u ++ "/api/v1") := by
  refine ⟨rfl, ?_, ?_, ?_, ?_⟩
  · intro h
    simp [VPAnalysisAPI_init, h]
  · intro h
    simp [VPAnalysisAPI_init, h]
  · intro h
    simp [apiUrl, h]
  · intro h
    simp [apiUrl, h]

theorem init_key_resolution_witness :
    VPAnalysisAPI_init (some "arg") (fun v => if v = "VP_ANALYSIS_API_KEY" then some "envk" else none) =
      .ok ("arg", apiUrl (fun v => if v = "VP_ANALYSIS_API_KEY" then some "envk" else none)) ∧
    VPAnalysisAPI_init none (fun v => if v = "VP_ANALYSIS_API_KEY" then some "envk" else none) =
      .ok ("envk", apiUrl (fun v => if v = "VP_ANALYSIS_API_KEY" then some "envk" else none)) ∧
    VPAnalysisAPI_init none (fun _ => none) =
      .error (.authenticationError
        "No API key provided. Set VP_ANALYSIS_API_KEY environment variable or pass api_key parameter.") :=
  ⟨(init_key_resolution "arg" "envk" "u" _).1,
   (init_key_resolution "arg" "envk" "u" _).2.1 rfl,
   (init_key_resolution "arg" "envk" "u" (fun _ => none)).2.2.1 rfl⟩

/-- C6: when `invalidate_cache` exhausts its retries while the
persisting response is the recognized 429 overload, the `RateLimitError`
raised at line 414 is caught by the `except Exception` clause at line
424 and re-raised as a generic `APIRequestError`, contradicting the
method's own docstring ("Raises: RateLimitError: If rate limits are
exceeded."): the caller receives no distinguishable rate-limit error. -/
theorem invalidate_cache_persistent_429_wrapped :
    invalidate_cache (fun _ => overload429) =
      (3, [10, 10, 10],
        .error (.apiRequestError ("Unexpected error while invalidating cache: " ++ rateLimitMsg))) := rfl

/-! ## Lemmas about the overload-retry loop -/

theorem invalidateLoop_le (rs : Nat → Response) :
    ∀ fuel k s, (invalidateLoop rs fuel k s).1 ≤ k + fuel := by
  intro fuel
  induction fuel with
  | zero => intro k s; exact Nat.le_add_right k 0
  | succ f ih =>
    intro k s
    by_cases h : is_server_overload_error (rs k)
    · calc (invalidateLoop rs (f + 1) k s).1
          = (invalidateLoop rs f (k + 1) (s ++ [10])).1 := by simp [invalidateLoop, h]
        _ ≤ (k + 1) + f := ih (k + 1) (s ++ [10])
        _ = k + (f + 1) := by omega
    · simp [invalidateLoop, h]

theorem invalidateLoop_ge (rs : Nat → Response) :
    ∀ fuel k s, k ≤ (invalidateLoop rs fuel k s).1 := by
  intro fuel
  induction fuel with
  | zero => intro k s; exact Nat.le_refl k
  | succ f ih =>
    intro k s
    by_cases h : is_server_overload_error (rs k)
    · calc k ≤ k + 1 := Nat.le_succ k
        _ ≤ (invalidateLoop rs f (k + 1) (s ++ [10])).1 := ih (k + 1) (s ++ [10])
        _ = (invalidateLoop rs (f + 1) k s).1 := by simp [invalidateLoop, h]
    · simp [invalidateLoop, h]

theorem invalidateLoop_sleeps (rs : Nat → Response) :
    ∀ fuel k s, (invalidateLoop rs fuel k s).2.1 =
      s ++ List.replicate ((invalidateLoop rs fuel k s).1 - k) 10 := by
  intro fuel
  induction fuel with
  | zero => intro k s; simp [invalidateLoop]
  | succ f ih =>
    intro k s
    by_cases h : is_server_overload_error (rs k)
    · have hge : k + 1 ≤ (invalidateLoop rs f (k + 1) (s ++ [10])).1 :=
        invalidateLoop_ge rs f (k + 1) (s ++ [10])
      have hrw : invalidateLoop rs (f + 1) k s = invalidateLoop rs f (k + 1) (s ++ [10]) := by
        simp [invalidateLoop, h]
      rw [hrw, ih (k + 1) (s ++ [10])]
      have hsub : (invalidateLoop rs f (k + 1) (s ++ [10])).1 - k =
          ((invalidateLoop rs f (k + 1) (s ++ [10])).1 - (k + 1)) + 1 := by omega
      rw [hsub, List.append_assoc]
      rfl
    · simp [invalidateLoop, h]

theorem invalidateLoop_overload (rs : Nat → Response) :
    ∀ fuel k s j, k ≤ j → j < (invalidateLoop rs fuel k s).1 →
      is_server_overload_error (rs j) = true := by
  intro fuel
  induction fuel with
  | zero =>
    intro k s j hkj hlt
    simp [invalidateLoop] at hlt
    omega
  | succ f ih =>
    intro k s j hkj hlt
    by_cases h : is_server_overload_error (rs k)
    · rcases Nat.eq_or_lt_of_le hkj with heq | hlt'
      · subst heq; exact h
      · have hrw : invalidateLoop rs (f + 1) k s = invalidateLoop rs f (k + 1) (s ++ [10]) := by
          simp [invalidateLoop, h]
        rw [hrw] at hlt
        exact ih (k + 1) (s ++ [10]) j hlt' hlt
    · simp [invalidateLoop, h] at hlt
      omega

/-- C5: `invalidate_cache` retries only while `is_server_overload_error`
recognizes the response (a 503 with the exact upstream-reset body, or a
429 with the exact body "Rate exceeded."), sleeps a fixed 10 seconds
before each retry, performs at most 3 retries (4 total attempts);
on the sequence [503-overload, 503-overload, 200] it succeeds after
exactly 2 retries, and on four consecutive 503-overload responses it
stops after the 4th attempt (3 retries). -/
theorem invalidate_cache_retry_policy :
    (∀ r : Response, is_server_overload_error r = true ↔
      (r.status = 503 ∧ r.text = upstreamResetText) ∨
      (r.status = 429 ∧ r.text = "Rate exceeded.")) ∧
    (∀ responses : Nat → Response, (invalidate_cache responses).1 ≤ 3) ∧
    (∀ responses : Nat → Response,
      (invalidate_cache responses).2.1 = List.replicate (invalidate_cache responses).1 10) ∧
    (∀ responses : Nat → Response, ∀ k, k < (invalidate_cache responses).1 →
      is_server_overload_error (responses k) = true) ∧
    invalidate_cache (fun k => if k < 2 then overload503 else ok200) = (2, [10, 10], .ok ()) ∧
    (invalidate_cache (fun _ => overload503)).1 = 3 := by
  refine ⟨?_, ?_, ?_, ?_, rfl, rfl⟩
  · intro r
    simp [is_server_overload_error]
  · intro rs
    simpa using invalidateLoop_le rs 3 0 []
  · intro rs
    simpa using invalidateLoop_sleeps rs 3 0 []
  · intro rs k hk
    exact invalidateLoop_overload rs 3 0 [] k (Nat.zero_le k) hk

theorem invalidate_cache_retry_policy_witness :
    is_server_overload_error overload503 = true ∧
    (invalidate_cache (fun _ => overload503)).2.1 =
      List.replicate (invalidate_cache (fun _ => overload503)).1 10 :=
  ⟨invalidate_cache_retry_policy.2.2.2.1 (fun _ => overload503) 0 (by decide),
   invalidate_cache_retry_policy.2.2.1 (fun _ => overload503)⟩

/-! ## The 429 wrapping bug in the batch loop -/

theorem bigList_nodup : bigList.Nodup := by
  have hinj : Function.Injective (fun k : Nat => String.mk (List.replicate k 'a')) := by
    intro a b h
    simpa using congrArg (fun s : String => s.data.length) h
  exact (List.nodup_range 150).map hinj

theorem chunksOfAux_singleton (n : Nat) :
    ∀ fuel l, l ≠ [] → l.length ≤ n → 1 ≤ fuel → chunksOfAux n fuel l = [l] := by
  intro fuel
  match fuel with
  | 0 => intro l _ _ hf; omega
  | f + 1 =>
    intro l hne hlen _
    match l with
    | [] => exact absurd rfl hne
    | x :: xs =>
      have h1 : (x :: xs).take n = x :: xs := List.take_of_length_le hlen
      have h2 : (x :: xs).drop n = [] := List.drop_eq_nil_of_le hlen
      calc chunksOfAux n (f + 1) (x :: xs)
          = (x :: xs).take n :: chunksOfAux n f ((x :: xs).drop n) := rfl
        _ = [x :: xs] := by rw [h1, h2, chunksOfAux_nil]

theorem chunksOf_two (n : Nat) (l : List String) (hn : 0 < n) (h1 : n < l.length)
    (h2 : l.length ≤ 2 * n) : chunksOf n l = [l.take n, l.drop n] := by
  match l with
  | [] => simp at h1
  | x :: xs =>
    have hstep : chunksOf n (x :: xs)
        = (x :: xs).take n :: chunksOfAux n xs.length ((x :: xs).drop n) := rfl
    rw [hstep, chunksOfAux_singleton n xs.length ((x :: xs).drop n) ?_ ?_ ?_]
    · intro hnil
      have hle := List.drop_eq_nil_iff.mp hnil
      simp only [List.length_cons] at h1 hle
      omega
    · rw [List.length_drop]
      simp only [List.length_cons] at h2 ⊢
      omega
    · simp only [List.length_cons] at h1
      omega

/-- C3: a batch whose response has status 429 does not make
`_get_series_internal` raise `RateLimitError`: the `RateLimitError`
raised at line 181 is caught by the `except Exception` clause at line
194 and re-raised as the generic `APIRequestError`, contradicting the
method's docstring ("Raises: RateLimitError: If rate limits are
exceeded."). The abort behavior is as specified: of the two batches of
this 150-identifier call only the first is posted. -/
theorem get_series_internal_429_wrapped :
    get_series_internal (fun _ => resp429) bigList =
      ([bigList.take 100],
        .error (.apiRequestError
          ("Unexpected error while getting series data: " ++ rateLimitMsg))) := by
  have hded : bigList.dedup = bigList := List.dedup_eq_self.mpr bigList_nodup
  have hlen : bigList.length = 150 := by simp [bigList]
  have hch : chunksOf CHUNKING bigList = [bigList.take 100, bigList.drop 100] := by
    have h := chunksOf_two 100 bigList (by decide) (by omega) (by omega)
    simpa [CHUNKING] using h
  simp only [get_series_internal, hded, hch]
  rfl

/-! ## Column-wise concatenation -/

theorem find_table_of_disjoint (ts : List Table)
    (hdisj : ts.Pairwise (fun a b => a.cols.Disjoint b.cols))
    (t : Table) (ht : t ∈ ts) (c : String) (hc : c ∈ t.cols) :
    ts.find? (fun t' => t'.cols.contains c) = some t := by
  induction ts with
  | nil => cases ht
  | cons t0 rest ih =>
    rcases List.mem_cons.mp ht with h0 | hrest
    · subst h0
      exact List.find?_cons_of_pos _ (by simpa using hc)
    · have hd0 : t0.cols.Disjoint t.cols := (List.pairwise_cons.mp hdisj).1 t hrest
      have hnot : c ∉ t0.cols := fun hmem => hd0 hmem hc
      rw [List.find?_cons_of_neg _ (by simpa using hnot)]
      exact ih (List.pairwise_cons.mp hdisj).2 hrest

/-- C2 amended: for every nonempty sequence of batch tables with
pairwise disjoint (and individually duplicate-free) column sets,
`pd.concat(axis=1)` produces a table whose columns are the exact
disjoint union of the batches' columns (none duplicated, none dropped),
whose index is the union of the batches' indices, and in which a cell
`(i, c)` whose column belongs to a batch with no row `i` is a missing
value, while a cell whose batch has row `i` keeps the batch's value.
The empty sequence, excluded here, raises `ValueError` instead
(`concat_empty_list_fails`). -/
theorem concat_outer_join (ts : List Table) (hne : ts ≠ [])
    (hdisj : ts.Pairwise (fun a b => a.cols.Disjoint b.cols))
    (hnd : ∀ t ∈ ts, t.cols.Nodup) :
    pdConcatCols ts = .ok (concatTable ts) ∧
    (concatTable ts).cols = (ts.map Table.cols).flatten ∧
    (concatTable ts).cols.Nodup ∧
    (∀ t ∈ ts, ∀ c ∈ t.cols, c ∈ (concatTable ts).cols) ∧
    (∀ i, i ∈ (concatTable ts).index ↔ ∃ t ∈ ts, i ∈ t.index) ∧
    (∀ t ∈ ts, ∀ c ∈ t.cols, ∀ i : Nat,
      (i ∈ t.index → (concatTable ts).cell i c = t.cell i c) ∧
      (i ∉ t.index → (concatTable ts).cell i c = none)) := by
  refine ⟨?_, rfl, ?_, ?_, ?_, ?_⟩
  · match ts with
    | [] => exact absurd rfl hne
    | _ :: _ => rfl
  · refine List.nodup_flatten.mpr ⟨?_, ?_⟩
    · intro l hl
      obtain ⟨t, ht, rfl⟩ := List.mem_map.mp hl
      exact hnd t ht
    · exact hdisj.map Table.cols (fun a b hab => hab)
  · intro t ht c hc
    show c ∈ (ts.map Table.cols).flatten
    exact List.mem_flatten.mpr ⟨t.cols, List.mem_map.mpr ⟨t, ht, rfl⟩, hc⟩
  · intro i
    show i ∈ ((ts.map Table.index).flatten).dedup ↔ _
    rw [List.mem_dedup, List.mem_flatten]
    constructor
    · rintro ⟨l, hl, hil⟩
      obtain ⟨t, ht, rfl⟩ := List.mem_map.mp hl
      exact ⟨t, ht, hil⟩
    · rintro ⟨t, ht, hil⟩
      exact ⟨t.index, List.mem_map.mpr ⟨t, ht, rfl⟩, hil⟩
  · intro t ht c hc i
    have hfind : ts.find? (fun t' => t'.cols.contains c) = some t :=
      find_table_of_disjoint ts hdisj t ht c hc
    constructor
    · intro hi
      show (match ts.find? (fun t' => t'.cols.contains c) with
        | some t' => if t'.index.contains i then t'.cell i c else none
        | none => none) = t.cell i c
      rw [hfind]
      simp [hi]
    · intro hi
      show (match ts.find? (fun t' => t'.cols.contains c) with
        | some t' => if t'.index.contains i then t'.cell i c else none
        | none => none) = none
      rw [hfind]
      simp [hi]

theorem concat_outer_join_witness :
    pdConcatCols [tA, tB] = .ok (concatTable [tA, tB]) ∧
    (1 ∈ (concatTable [tA, tB]).index ↔ ∃ t ∈ [tA, tB], 1 ∈ t.index) ∧
    (concatTable [tA, tB]).cell 1 "a" = none :=
  have h := concat_outer_join [tA, tB] (List.cons_ne_nil _ _)
    (by
      refine List.pairwise_cons.mpr ⟨?_, List.pairwise_singleton _ _⟩
      intro b hb
      rcases List.mem_singleton.mp hb with rfl
      intro x hx hx'
      simp [tA] at hx
      subst hx
      simp [tB] at hx')
    (by
      intro t ht
      rcases List.mem_cons.mp ht with rfl | ht'
      · exact List.nodup_singleton _
      · rcases List.mem_singleton.mp ht' with rfl
        exact List.nodup_singleton _)
  ⟨h.1, h.2.2.2.2.1 1,
    (h.2.2.2.2.2 tA (by simp) "a" (by simp [tA]) 1).2 (by simp [tA])⟩

/-! ## The factor pivot -/

theorem find_row_of_nodup_keys (rows : List FactorRow)
    (hnd : (rows.map pivotKey).Nodup) (r : FactorRow) (hr : r ∈ rows) :
    rows.find? (fun x =>
      decide (x.dt = r.dt) && decide (x.stock_code = r.stock_code) &&
        decide (x.factor_identifier = r.factor_identifier)) = some r := by
  induction rows with
  | nil => cases hr
  | cons x rest ih =>
    rcases List.mem_cons.mp hr with h0 | hrest
    · subst h0
      exact List.find?_cons_of_pos _ (by simp)
    · have hxnotin : pivotKey x ∉ rest.map pivotKey :=
        (List.nodup_cons.mp (by simpa using hnd)).1
      have hxne : ¬(x.dt = r.dt ∧ x.stock_code = r.stock_code ∧
          x.factor_identifier = r.factor_identifier) := by
        rintro ⟨h1, h2, h3⟩
        exact hxnotin (List.mem_map.mpr ⟨r, hrest, by simp [pivotKey, h1, h2, h3]⟩)
      rw [List.find?_cons_of_neg _ (by simpa using fun h1 h2 h3 => hxne ⟨h1, h2, h3⟩)]
      exact ih (List.nodup_cons.mp (by simpa using hnd)).2 hrest

/-- C7: the pivot of the long-format factor table raises `ValueError`
whenever the `(dt, stock_code, factor_identifier)` key triple is
duplicated, never silently picking a value; when the triple is unique it
returns the wide table keyed by date with a two-level
`(security, factor)` column key holding each row's value. -/
theorem pivot_requires_unique_keys (rows : List FactorRow) :
    (¬ (rows.map pivotKey).Nodup →
      pivotFactors rows = .error (.valueError "Index contains duplicate entries, cannot reshape")) ∧
    ((rows.map pivotKey).Nodup →
      pivotFactors rows = .ok (pivotTable rows) ∧
      ∀ r ∈ rows, r.dt ∈ (pivotTable rows).index ∧
        (r.stock_code, r.factor_identifier) ∈ (pivotTable rows).cols ∧
        (pivotTable rows).cell r.dt (r.stock_code, r.factor_identifier) = some r.value) := by
  constructor
  · intro hdup
    simp [pivotFactors, hdup]
  · intro hnd
    refine ⟨by simp [pivotFactors, hnd], ?_⟩
    intro r hr
    refine ⟨?_, ?_, ?_⟩
    · show r.dt ∈ (rows.map FactorRow.dt).dedup
      exact List.mem_dedup.mpr (List.mem_map.mpr ⟨r, hr, rfl⟩)
    · show _ ∈ (rows.map (fun x => (x.stock_code, x.factor_identifier))).dedup
      exact List.mem_dedup.mpr (List.mem_map.mpr ⟨r, hr, rfl⟩)
    · show (rows.find? _).map FactorRow.value = some r.value
      rw [find_row_of_nodup_keys rows hnd r hr]
      rfl

theorem pivot_requires_unique_keys_witness :
    pivotFactors [⟨1, "s", "f", 3⟩, ⟨1, "s", "f", 4⟩] =
      .error (.valueError "Index contains duplicate entries, cannot reshape") ∧
    pivotFactors [⟨1, "s", "f", 3⟩] = .ok (pivotTable [⟨1, "s", "f", 3⟩]) ∧
    (pivotTable [⟨1, "s", "f", 3⟩]).cell 1 ("s", "f") = some 3 :=
  ⟨(pivot_requires_unique_keys [⟨1, "s", "f", 3⟩, ⟨1, "s", "f", 4⟩]).1 (by decide),
   ((pivot_requires_unique_keys [⟨1, "s", "f", 3⟩]).2 (by decide)).1,
   (((pivot_requires_unique_keys [⟨1, "s", "f", 3⟩]).2 (by decide)).2 ⟨1, "s", "f", 3⟩ (by simp)).2.2⟩

/-! ## The vp: prefixing and renaming round trip -/

theorem strDrop3_vp (s : String) : strDrop3 ("vp:" ++ s) = s := by
  simp [strDrop3, String.data_append]

theorem vp_injective : Function.Injective (fun s : String => "vp:" ++ s) :=
  Function.LeftInverse.injective strDrop3_vp

theorem runChunks_all_ok (server : List String → Response) :
    ∀ cs : List (List String), (∀ c ∈ cs, (server c).status = 200) →
      runChunks server cs = (cs, .ok (cs.map (fun c => (server c).content))) := by
  intro cs
  induction cs with
  | nil => intro _; rfl
  | cons c cs ih =>
    intro h
    have hc : (server c).status = 200 := h c (List.mem_cons_self c cs)
    have hbatch : getSeriesBatch (server c) = .ok (server c).content := by
      simp [getSeriesBatch, getSeriesBatchCheck, hc]
    simp [runChunks, hbatch, ih (fun d hd => h d (List.mem_cons_of_mem c hd))]

theorem dedup_ne_nil (l : List String) (hl : l ≠ []) : l.dedup ≠ [] := by
  match l with
  | [] => exact absurd rfl hl
  | x :: xs =>
    exact List.ne_nil_of_mem (List.mem_dedup.mpr (List.mem_cons_self x xs))

theorem chunksOf_ne_nil (n : Nat) (l : List String) (hl : l ≠ []) : chunksOf n l ≠ [] := by
  match l with
  | [] => exact absurd rfl hl
  | x :: xs => exact List.cons_ne_nil _ _

theorem get_series_cols_of_ne (server : List String → Response) (l : List String)
    (hecho : ∀ c, (server c).status = 200 ∧ (server c).content.cols = c) (hne : l ≠ []) :
    resultCols (get_series server l).2 = some l.dedup ∧
    (get_series server l).1.flatten = (l.map (fun s => "vp:" ++ s)).dedup := by
  have hplne : l.map (fun s => "vp:" ++ s) ≠ [] := by
    simpa using hne
  have hcs_ne : chunksOf CHUNKING (l.map (fun s => "vp:" ++ s)).dedup ≠ [] :=
    chunksOf_ne_nil _ _ (dedup_ne_nil _ hplne)
  have hrun : runChunks server (chunksOf CHUNKING (l.map (fun s => "vp:" ++ s)).dedup) =
      (chunksOf CHUNKING (l.map (fun s => "vp:" ++ s)).dedup,
        .ok ((chunksOf CHUNKING (l.map (fun s => "vp:" ++ s)).dedup).map
          (fun c => (server c).content))) :=
    runChunks_all_ok server _ (fun c _ => (hecho c).1)
  have hflat : (chunksOf CHUNKING (l.map (fun s => "vp:" ++ s)).dedup).flatten =
      (l.map (fun s => "vp:" ++ s)).dedup :=
    chunksOfAux_flatten CHUNKING (by decide) _ _ (Nat.le_refl _)
  obtain ⟨c0, cs', hcs'⟩ := List.exists_cons_of_ne_nil hcs_ne
  have hts_ne : (chunksOf CHUNKING (l.map (fun s => "vp:" ++ s)).dedup).map
      (fun c => (server c).content) ≠ [] := by
    rw [hcs']
    exact List.cons_ne_nil _ _
  have hconc : pdConcatCols ((chunksOf CHUNKING (l.map (fun s => "vp:" ++ s)).dedup).map
      (fun c => (server c).content)) =
      .ok (concatTable ((chunksOf CHUNKING (l.map (fun s => "vp:" ++ s)).dedup).map
        (fun c => (server c).content))) := by
    rw [hcs']
    rfl
  have hcols : (concatTable ((chunksOf CHUNKING (l.map (fun s => "vp:" ++ s)).dedup).map
      (fun c => (server c).content))).cols = (l.map (fun s => "vp:" ++ s)).dedup := by
    show ((((chunksOf CHUNKING (l.map (fun s => "vp:" ++ s)).dedup).map
      (fun c => (server c).content)).map Table.cols)).flatten = _
    rw [List.map_map]
    have hid : ((chunksOf CHUNKING (l.map (fun s => "vp:" ++ s)).dedup).map
        (Table.cols ∘ fun c => (server c).content)) =
        chunksOf CHUNKING (l.map (fun s => "vp:" ++ s)).dedup := by
      have := List.map_congr_left (l := chunksOf CHUNKING (l.map (fun s => "vp:" ++ s)).dedup)
        (f := Table.cols ∘ fun c => (server c).content) (g := id) (fun c _ => (hecho c).2)
      simpa using this
    rw [hid, hflat]
  have hround : ((l.map (fun s => "vp:" ++ s)).dedup).map strDrop3 = l.dedup := by
    rw [List.dedup_map_of_injective vp_injective, List.map_map]
    have : strDrop3 ∘ (fun s : String => "vp:" ++ s) = id := by
      funext s
      exact strDrop3_vp s
    rw [this, List.map_id]
  constructor
  · show resultCols (get_series server l).2 = some l.dedup
    simp only [get_series, get_series_internal, hrun, hconc, resultCols, renameCols]
    rw [hcols, hround]
  · show (get_series server l).1.flatten = _
    simp only [get_series, get_series_internal, hrun]
    exact hflat

/-- C10: `get_series` posts each identifier with the "vp:" prefix
prepended (the posted batches concatenate to the deduplicated prefixed
list) and strips the first three characters of every returned column
label, so that, whenever the server echoes the requested identifiers as
columns and a table is returned, its column names are exactly the
caller's deduplicated original identifiers, with no "vp:" prefix
visible at the public interface. -/
theorem get_series_round_trip (server : List String → Response) (l : List String)
    (hecho : ∀ c, (server c).status = 200 ∧ (server c).content.cols = c)
    (t : Table) (hok : (get_series server l).2 = .ok t) :
    t.cols = l.dedup ∧
    (get_series server l).1.flatten = (l.map (fun s => "vp:" ++ s)).dedup := by
  by_cases hl : l = []
  · subst hl
    have hempty : (get_series server []).2 =
        .error (wrapGetSeriesError (.valueError "No objects to concatenate")) := rfl
    rw [hempty] at hok
    exact Except.noConfusion hok
  · have h := get_series_cols_of_ne server l hecho hl
    refine ⟨?_, h.2⟩
    have hcols := h.1
    rw [hok] at hcols
    simpa [resultCols] using hcols

theorem get_series_round_trip_witness :
    echoResult.cols = ["a", "b", "a"].dedup :=
  (get_series_round_trip echoServer ["a", "b", "a"] (fun _ => ⟨rfl, rfl⟩)
    echoResult rfl).1

/-! ## The cleaning pass -/

theorem asfreq_index_ge (step start : Nat) (df : Table) :
    ∀ j ∈ (asfreq step (locFrom start df)).index, start ≤ j := by
  intro j hj
  rcases h : (locFrom start df).index with _ | ⟨i0, rest⟩
  · rw [show (asfreq step (locFrom start df)).index =
        (match (locFrom start df).index with
          | [] => []
          | i0 :: rest =>
            (List.range (((i0 :: rest).getLast (List.cons_ne_nil i0 rest) - i0) / step + 1)).map
              (fun k => i0 + k * step)) from rfl, h] at hj
    cases hj
  · have hi0 : i0 ∈ (locFrom start df).index := by
      rw [h]
      exact List.mem_cons_self i0 rest
    have hstart : start ≤ i0 := by
      have := (List.mem_filter.mp hi0).2
      exact of_decide_eq_true this
    rw [show (asfreq step (locFrom start df)).index =
        (match (locFrom start df).index with
          | [] => []
          | i0 :: rest =>
            (List.range (((i0 :: rest).getLast (List.cons_ne_nil i0 rest) - i0) / step + 1)).map
              (fun k => i0 + k * step)) from rfl, h] at hj
    obtain ⟨k, _, rfl⟩ := List.mem_map.mp hj
    exact Nat.le_add_right_of_le hstart

theorem trimLeading_index_subset (d : Table) :
    ∀ j ∈ (trimLeading d).index, j ∈ d.index := by
  intro j hj
  unfold trimLeading at hj
  rcases h : firstValidIndex d with _ | fv
  · rw [h] at hj
    exact hj
  · rw [h] at hj
    exact (List.mem_filter.mp hj).1

theorem ffillMaskCell_isSome (d : Table) (c : String) (i : Nat) :
    (ffillMaskCell d c i).isSome = true ↔
      ((∃ j ∈ d.index, j ≤ i ∧ (d.cell j c).isSome = true) ∧
       (∃ j ∈ d.index, i ≤ j ∧ (d.cell j c).isSome = true)) := by
  unfold ffillMaskCell
  by_cases hany : d.index.any (fun j => decide (i ≤ j) && (d.cell j c).isSome) = true
  · rw [if_pos hany]
    have hany' : ∃ j ∈ d.index, i ≤ j ∧ (d.cell j c).isSome = true := by
      obtain ⟨j, hj, hp⟩ := List.any_eq_true.mp hany
      simp only [Bool.and_eq_true, decide_eq_true_eq] at hp
      exact ⟨j, hj, hp.1, hp.2⟩
    rcases hlast : (d.index.filter (fun j => decide (j ≤ i) && (d.cell j c).isSome)).getLast?
        with _ | j
    · have hnil := List.getLast?_eq_none_iff.mp hlast
      have hno := List.filter_eq_nil_iff.mp hnil
      apply iff_of_false
      · simp
      · rintro ⟨⟨j, hj, hji, hjs⟩, _⟩
        exact hno j hj (by simp [hji, hjs])
    · have hjmem := List.mem_of_getLast?_eq_some hlast
      have hj' := List.mem_filter.mp hjmem
      have hp := hj'.2
      simp only [Bool.and_eq_true, decide_eq_true_eq] at hp
      apply iff_of_true
      · simpa using hp.2
      · exact ⟨⟨j, hj'.1, hp.1, hp.2⟩, hany'⟩
  · rw [if_neg hany]
    apply iff_of_false
    · simp
    · rintro ⟨_, j, hj, hij, hsome⟩
      exact hany (List.any_eq_true.mpr ⟨j, hj, by simp [hij, hsome]⟩)

theorem ffillMaskCell_eq_some (d : Table) (c : String) (i : Nat) (v : Int)
    (h : ffillMaskCell d c i = some v) :
    ∃ j ∈ d.index, j ≤ i ∧ d.cell j c = some v := by
  unfold ffillMaskCell at h
  by_cases hany : d.index.any (fun j => decide (i ≤ j) && (d.cell j c).isSome) = true
  · rw [if_pos hany] at h
    rcases hlast : (d.index.filter (fun j => decide (j ≤ i) && (d.cell j c).isSome)).getLast?
        with _ | j
    · rw [hlast] at h
      cases h
    · rw [hlast] at h
      have hjmem := List.mem_of_getLast?_eq_some hlast
      have hj' := List.mem_filter.mp hjmem
      have hp := hj'.2
      simp only [Bool.and_eq_true, decide_eq_true_eq] at hp
      exact ⟨j, hj'.1, hp.1, h⟩
  · rw [if_neg hany] at h
    cases h

theorem trimLeading_cell (d : Table) : (trimLeading d).cell = d.cell := by
  unfold trimLeading
  cases firstValidIndex d <;> rfl

/-- C9 amended: `clean_df` keeps only rows at or after the start date
resampled to the fixed frequency; a cell of the resampled table is
non-missing in the output if and only if its column holds a non-missing
value at some row at or before it and at some row at or after it (so
interior gaps are filled and values are never extended past the
column's last real data point, but a missing cell with no earlier value
stays missing); a filled value comes from a row at or before its own;
and the output keeps exactly the rows of the resampled table from the
first row carrying any valid value onward. -/
theorem clean_df_fill_rule (df : Table) (step start i : Nat) (c : String) :
    (∀ j ∈ (clean_df df step start).index, start ≤ j) ∧
    (((clean_df df step start).cell i c).isSome = true ↔
      ((∃ j ∈ (asfreq step (locFrom start df)).index, j ≤ i ∧
          ((asfreq step (locFrom start df)).cell j c).isSome = true) ∧
       (∃ j ∈ (asfreq step (locFrom start df)).index, i ≤ j ∧
          ((asfreq step (locFrom start df)).cell j c).isSome = true))) ∧
    (∀ v : Int, (clean_df df step start).cell i c = some v →
      ∃ j ∈ (asfreq step (locFrom start df)).index, j ≤ i ∧
        (asfreq step (locFrom start df)).cell j c = some v) ∧
    (∀ fv, firstValidIndex (ffillMask (asfreq step (locFrom start df))) = some fv →
      ∀ j : Nat, j ∈ (clean_df df step start).index ↔
        j ∈ (asfreq step (locFrom start df)).index ∧ fv ≤ j) := by
  have hcell : (clean_df df step start).cell =
      fun i c => ffillMaskCell (asfreq step (locFrom start df)) c i := by
    show (trimLeading (ffillMask (asfreq step (locFrom start df)))).cell = _
    rw [trimLeading_cell]
    rfl
  refine ⟨?_, ?_, ?_, ?_⟩
  · intro j hj
    have hj' : j ∈ (asfreq step (locFrom start df)).index :=
      trimLeading_index_subset (ffillMask (asfreq step (locFrom start df))) j hj
    exact asfreq_index_ge step start df j hj'
  · rw [hcell]
    exact ffillMaskCell_isSome (asfreq step (locFrom start df)) c i
  · intro v hv
    rw [hcell] at hv
    exact ffillMaskCell_eq_some (asfreq step (locFrom start df)) c i v hv
  · intro fv hfv j
    show j ∈ (trimLeading (ffillMask (asfreq step (locFrom start df)))).index ↔ _
    unfold trimLeading
    rw [hfv]
    simp [List.mem_filter, ffillMask]

/-- C9 counterexample: in `dfC9` the resampled column "B" is missing at
row 0 and holds the value 5 at the later row 1, yet `clean_df` leaves
the cell at row 0 missing (there is no earlier value to forward-fill
from), while row 0 survives in the output because column "A" is valid
there: a missing cell with a later non-missing value in its column is
not always filled. -/
theorem clean_df_needs_earlier_value :
    0 ∈ (clean_df dfC9 1 0).index ∧
    (asfreq 1 (locFrom 0 dfC9)).cell 0 "B" = none ∧
    (asfreq 1 (locFrom 0 dfC9)).cell 1 "B" = some 5 ∧
    1 ∈ (asfreq 1 (locFrom 0 dfC9)).index ∧
    (clean_df dfC9 1 0).cell 0 "B" = none := by
  refine ⟨by decide, by decide, by decide, by decide, by decide⟩

theorem clean_df_fill_rule_witness :
    (0 : Nat) ≤ 2 ∧ ((clean_df dfGap 1 0).cell 2 "C").isSome = true :=
  ⟨(clean_df_fill_rule dfGap 1 0 2 "C").1 2 (by decide),
   (clean_df_fill_rule dfGap 1 0 2 "C").2.1.mpr
     ⟨⟨0, by decide, by decide, by decide⟩, ⟨4, by decide, by decide, by decide⟩⟩⟩

end VPAnalysis
